import Mathlib

/-!
Shallow embedding of the "AI Repository Tokenizer" (repotok).

The embedded code follows `src/unnamed/part_000` (the module exporting
`parseProject`, used by `src/src/cli.ts`). Pure helpers (pattern
compilation, rule evaluation, header formatting, the built-in exclusion
predicates) are translated directly; the effectful walk
(`processDirectory` / `processFile`) is modelled as a recursion over an
explicit file-system tree, with the per-file callback accumulation
represented as the ordered list of callback invocations, and with
exceptions modelled in the `Except Unit` monad.

Modelling conventions:
- JavaScript string primitives (`replace` with a global literal
  pattern, `split`, `trim`, `toLowerCase`, `startsWith`, `endsWith`)
  are implemented over `List Char` so that every definition reduces in
  the kernel; each mirrors the ECMAScript behaviour for the inputs the
  program feeds it.
- JavaScript `RegExp` construction and `test` are modelled for the
  fragment of regular expressions that `convertGitignorePatternToRegex`
  produces from ordinary gitignore lines: literal characters, `.`,
  `[^/]`, `*` applied to one of those atoms, a leading `^`, a trailing
  `$`.  Inputs outside this fragment make the parser fail, which models
  the `SyntaxError` thrown by `new RegExp` on malformed sources such as
  an unterminated `[`.  `RegExp.prototype.test` without flags is an
  unanchored substring search, `.` does not match line terminators, and
  `^` / `$` anchor at the ends of the whole string; `regexTest` below
  implements exactly that.
- Paths handed to the walk are the strings `basePath ++ "/" ++ rel`
  built by `path.join`; `basePath` and `outputPath` are taken to be
  absolute and normalized, so `path.resolve(outputPath) = outputPath`.
- A file whose text cannot be read (`fs.readFile` rejecting) is
  modelled by `content = none`; the `try/catch` in `processFile`
  swallows that failure.
-/

set_option maxRecDepth 8000

deriving instance DecidableEq for Except

namespace Repotok

/-! ## JavaScript string primitives over `List Char` -/

/-- One pass of JavaScript `String.prototype.replace` with a global
literal pattern: left to right, non-overlapping, the replacement text
is not rescanned.  `fuel` bounds the number of steps; since every step
consumes at least one input character, `cs.length` is always enough. -/
def replaceAllAux (pat rep : List Char) : Nat → List Char → List Char
  | _, [] => []
  | 0, cs => cs
  | fuel + 1, c :: cs =>
      if !pat.isEmpty && pat.isPrefixOf (c :: cs) then
        rep ++ replaceAllAux pat rep fuel (cs.drop (pat.length - 1))
      else
        c :: replaceAllAux pat rep fuel cs

/-- `s.replace(/pat/g, rep)` for a literal pattern `pat`. -/
def jsReplace (s pat rep : String) : String :=
  String.mk (replaceAllAux pat.data rep.data s.data.length s.data)

/-- Split a character list on a separator character (JavaScript
`s.split(sep)` keeps empty groups). -/
def splitOnChar (sep : Char) : List Char → List (List Char)
  | [] => [[]]
  | c :: cs =>
      let rest := splitOnChar sep cs
      if c = sep then [] :: rest
      else
        match rest with
        | [] => [[c]]
        | g :: gs => (c :: g) :: gs

/-- `s.split('\n')`. -/
def jsSplitLines (s : String) : List String :=
  (splitOnChar '\n' s.data).map String.mk

/-- The characters JavaScript `trim` removes. -/
def isJsSpace (c : Char) : Bool :=
  c = ' ' || c = '\t' || c = '\n' || c = '\r' || c = '\x0b' ||
  c = '\x0c' || c = '\u00a0' || c = '\u2028' || c = '\u2029' || c = '\ufeff'

/-- `s.trim()`. -/
def jsTrim (s : String) : String :=
  String.mk (((s.data.dropWhile isJsSpace).reverse.dropWhile isJsSpace).reverse)

/-- `s.startsWith(p)`. -/
def strStartsWith (s p : String) : Bool :=
  p.data.isPrefixOf s.data

/-- `s.endsWith(p)`. -/
def strEndsWith (s p : String) : Bool :=
  p.data.reverse.isPrefixOf s.data.reverse

/-- `s.substring(n)` (drop the first `n` characters). -/
def strDrop (s : String) (n : Nat) : String :=
  String.mk (s.data.drop n)

/-- Drop the last `n` characters. -/
def strDropRight (s : String) (n : Nat) : String :=
  String.mk (s.data.take (s.data.length - n))

/-- `s.toLowerCase()` (ASCII case folding, as used on extensions). -/
def strToLower (s : String) : String :=
  String.mk (s.data.map Char.toLower)

/-! ## The modelled `RegExp` fragment -/

/-- Atoms of the regular-expression fragment emitted by
`convertGitignorePatternToRegex`. -/
inductive RElem where
  | lit (c : Char)
  | dot
  | notSlash
  | star (a : RElem)
  | endAnchor
  deriving Repr, DecidableEq

/-- JavaScript `.` (no `s` flag): any character except a line terminator. -/
def isDotMatchable (c : Char) : Bool :=
  c ≠ '\n' && c ≠ '\r' && c ≠ '\u2028' && c ≠ '\u2029'

/-- Characters that stand for themselves in a JavaScript regular
expression (within the fragment we model; the metacharacters handled
by `parseAtoms` never reach this test). -/
def isRegexLiteralChar (c : Char) : Bool :=
  c ≠ '\\' && c ≠ '+' && c ≠ '?' && c ≠ '(' && c ≠ ')' &&
  c ≠ '|' && c ≠ '\x7b' && c ≠ '\x7d'

/-- Parse the body of a compiled pattern (after an optional leading `^`)
into regex atoms.  `none` models `new RegExp` throwing a `SyntaxError`
(for example on an unterminated character class), or a source outside
the modelled fragment. -/
def parseAtoms : List Char → Option (List RElem)
  | [] => some []
  | '*' :: _ => none
  | '[' :: '^' :: '/' :: ']' :: '*' :: rest =>
      (parseAtoms rest).map (fun es => RElem.star RElem.notSlash :: es)
  | '[' :: '^' :: '/' :: ']' :: rest =>
      (parseAtoms rest).map (fun es => RElem.notSlash :: es)
  | '[' :: _ => none
  | '.' :: '*' :: rest =>
      (parseAtoms rest).map (fun es => RElem.star RElem.dot :: es)
  | '.' :: rest =>
      (parseAtoms rest).map (fun es => RElem.dot :: es)
  | '$' :: rest => if rest.isEmpty then some [RElem.endAnchor] else none
  | '^' :: _ => none
  | c :: '*' :: rest =>
      if isRegexLiteralChar c then
        (parseAtoms rest).map (fun es => RElem.star (RElem.lit c) :: es)
      else none
  | c :: rest =>
      if isRegexLiteralChar c then
        (parseAtoms rest).map (fun es => RElem.lit c :: es)
      else none

/-- A compiled JavaScript regular expression of the modelled fragment:
an optional start anchor and a sequence of atoms. -/
structure JsRegex where
  anchored : Bool
  elems : List RElem
  deriving Repr, DecidableEq

/-- `new RegExp source` for the modelled fragment. -/
def parseJsRegex (source : String) : Option JsRegex :=
  match source.data with
  | '^' :: rest => (parseAtoms rest).map (fun es => ⟨true, es⟩)
  | cs => (parseAtoms cs).map (fun es => ⟨false, es⟩)

/-- Does a single non-star atom match one character? -/
def matchAtom : RElem → Char → Bool
  | RElem.lit c, d => c = d
  | RElem.dot, d => isDotMatchable d
  | RElem.notSlash, d => d ≠ '/'
  | _, _ => false

/-- Does the atom sequence match a prefix of `cs` (with `endAnchor`
requiring the end of the string)?  A starred atom matches any number of
characters each matched by the atom, so the star case quantifies over
the split point. -/
def matchHere : List RElem → List Char → Bool
  | [], _ => true
  | RElem.endAnchor :: _, cs => cs.isEmpty
  | RElem.lit c :: es, d :: cs => c = d && matchHere es cs
  | RElem.lit _ :: _, [] => false
  | RElem.dot :: es, d :: cs => isDotMatchable d && matchHere es cs
  | RElem.dot :: _, [] => false
  | RElem.notSlash :: es, d :: cs => d ≠ '/' && matchHere es cs
  | RElem.notSlash :: _, [] => false
  | RElem.star a :: es, cs =>
      (List.range (cs.length + 1)).any (fun k =>
        (cs.take k).all (matchAtom a) && matchHere es (cs.drop k))

/-- Unanchored search: does the sequence match starting at some
position of `cs`? -/
def searchAnywhere (es : List RElem) : List Char → Bool
  | [] => matchHere es []
  | d :: cs => matchHere es (d :: cs) || searchAnywhere es cs

/-- `regex.test(s)` for the modelled fragment. -/
def regexTest (r : JsRegex) (s : String) : Bool :=
  if r.anchored then matchHere r.elems s.data else searchAnywhere r.elems s.data

/-! ## Gitignore rules (`parseGitignore` and friends) -/

/-- Rule object representing a gitignore rule (`GitignoreRule` in the
source); `pattern` holds the compiled regular-expression source. -/
structure GitignoreRule where
  pattern : String
  isNegated : Bool
  deriving Repr, DecidableEq

/-- `convertGitignorePatternToRegex` from the source: the chain of
string replacements turning a gitignore glob into a regex source. -/
def convertGitignorePatternToRegex (pattern : String) : String :=
  let s1 := jsReplace pattern "**" "___GLOBSTAR___"
  let s2 := jsReplace s1 "*" "[^/]*"
  let s3 := jsReplace s2 "?" "[^/]"
  let s4 := jsReplace s3 "___GLOBSTAR___" ".*"
  let s5 := if strStartsWith s4 "/" then "^" ++ strDrop s4 1 else s4
  if strEndsWith s5 "/" then strDropRight s5 1 ++ "$" else s5

/-- `line.replace(/#.*$/, '')`: drop everything from the first `#`. -/
def stripComment (line : String) : String :=
  String.mk (line.data.takeWhile (fun c => c ≠ '#'))

/-- The rule list built by `parseGitignore` from the `.gitignore`
content: split on newlines, strip comments, trim, drop empty lines,
detect `!` negation, compile each pattern. -/
def parseGitignoreRules (content : String) : List GitignoreRule :=
  ((((jsSplitLines content).map (fun line => jsTrim (stripComment line))).filter
      (fun line => line.length > 0)).map
    (fun line =>
      let isNegated := strStartsWith line "!"
      let pattern := if isNegated then strDrop line 1 else line
      { pattern := convertGitignorePatternToRegex pattern, isNegated }))

/-- The body of `accepts`: normalize separators, then `reduce` over the
rules starting from `true`; a rule that matches overwrites the
accumulator with its negation flag.  Each step constructs the rule's
`RegExp`, so an uncompilable pattern raises (models the `SyntaxError`
escaping from `accepts`). -/
def acceptsRules (rules : List GitignoreRule) (filePath : String) :
    Except Unit Bool :=
  let normalizedPath := jsReplace filePath "\\" "/"
  rules.foldlM
    (fun shouldInclude rule =>
      match parseJsRegex rule.pattern with
      | none => Except.error ()
      | some regex =>
          let isMatch := regexTest regex normalizedPath
          Except.ok (if isMatch then rule.isNegated else shouldInclude))
    true

/-- A `GitignoreParser`: either the rule-based one returned by
`parseGitignore`, or the default parser that accepts every path
(`createDefaultGitignoreParser`). -/
inductive GitignoreParser where
  | ofRules (rules : List GitignoreRule)
  | defaultAccept
  deriving Repr, DecidableEq

/-- `parser.accepts(filePath)`. -/
def GitignoreParser.accepts : GitignoreParser → String → Except Unit Bool
  | GitignoreParser.ofRules rules, filePath => acceptsRules rules filePath
  | GitignoreParser.defaultAccept, _ => Except.ok true

/-- `loadGitignoreParser`: rules when a `.gitignore` was read, the
accept-everything parser when it is missing or unreadable. -/
def loadGitignoreParser (gitignoreContent : Option String) : GitignoreParser :=
  match gitignoreContent with
  | some content => GitignoreParser.ofRules (parseGitignoreRules content)
  | none => GitignoreParser.defaultAccept

/-! ## Built-in exclusions -/

def MAX_FILE_SIZE_BYTES : Nat := 1024 * 1024

def COMMON_IGNORED_DIRECTORIES : List String :=
  ["node_modules", ".git", ".idea", ".vscode", "dist", "build"]

def COMMON_IGNORED_FILES : List String :=
  ["package-lock.json", "yarn.lock", "pnpm-lock.yaml", "bun.lockb",
   ".DS_Store", "Thumbs.db", ".env", ".env.local", ".env.development.local",
   ".env.test.local", ".env.production.local"]

def BINARY_EXTENSIONS : List String :=
  [".jpg", ".jpeg", ".png", ".gif", ".bmp", ".ico", ".svg", ".pdf",
   ".doc", ".docx", ".xls", ".xlsx", ".ppt", ".pptx", ".zip", ".rar",
   ".tar", ".gz", ".7z", ".exe", ".dll", ".so", ".dylib", ".mp3",
   ".mp4", ".avi", ".mov", ".flv", ".ttf", ".otf", ".woff", ".woff2",
   ".pyc", ".class"]

/-- `path.basename`: the part after the last `/` (paths built by the
walk never end in a separator). -/
def basename (p : String) : String :=
  String.mk ((splitOnChar '/' p.data).getLastD [])

/-- `path.extname`: from the last `.` of the basename to the end;
empty when there is no dot or when the only dot is the leading
character (dotfiles such as `.env` have no extension). -/
def extname (p : String) : String :=
  let b := (basename p).data
  let afterDot := (b.reverse.takeWhile (fun c => c ≠ '.')).length
  if afterDot = b.length then ""
  else
    let i := b.length - afterDot - 1
    if i = 0 then "" else String.mk (b.drop i)

/-- `isBinaryFile`: extension, lower-cased, among the built-ins. -/
def isBinaryFile (filePath : String) : Bool :=
  BINARY_EXTENSIONS.contains (strToLower (extname filePath))

/-- `isCommonIgnoredDirectory`. -/
def isCommonIgnoredDirectory (directoryName : String) : Bool :=
  COMMON_IGNORED_DIRECTORIES.contains directoryName

/-- `isCommonIgnoredFile`. -/
def isCommonIgnoredFile (filename : String) : Bool :=
  COMMON_IGNORED_FILES.contains filename

/-- `isFileTooLarge`. -/
def isFileTooLarge (fileSize : Nat) : Bool :=
  fileSize > MAX_FILE_SIZE_BYTES

/-! ## The walk (`processFile` / `processDirectory` / `parseProject`) -/

mutual

/-- A directory entry of the scanned tree.  A file carries its byte
size and its text content, `none` standing for a file whose read as
text fails (permission error, invalid encoding, vanished mid-walk). -/
inductive FSEntry where
  | file (name : String) (size : Nat) (content : Option String)
  | dir (name : String) (entries : FSForest)

/-- The ordered entry listing of a directory, in the order the
filesystem enumeration returns it. -/
inductive FSForest where
  | nil
  | cons (e : FSEntry) (rest : FSForest)

end

/-- One callback invocation of the `FileProcessor`: the relative path
and the content handed to `appendToOutput`. -/
structure OutputRecord where
  relativePath : String
  content : String
  deriving Repr, DecidableEq

/-- `path.join(relDir, name)` restricted to the relative paths the walk
builds (no trailing or duplicated separators arise). -/
def joinRel (relDir name : String) : String :=
  if relDir = "" then name else relDir ++ "/" ++ name

/-- `processFile` from the source: the output file itself is skipped
first, then binary/oversized files, then the built-in ignored
filenames; finally the content is read and handed to the callback, a
read failure being caught and swallowed (no record).  The result is
the list of callback invocations (empty or a singleton). -/
def processFile (filePath relativePath outputPath : String) (size : Nat)
    (content : Option String) : List OutputRecord :=
  let filename := basename filePath
  let isOutputFile := filePath == outputPath
  if isOutputFile then []
  else if isBinaryFile filePath || isFileTooLarge size then []
  else if isCommonIgnoredFile filename then []
  else
    match content with
    | some text => [⟨relativePath, text⟩]
    | none => []

mutual

/-- The body of `processDirectory`'s loop for one entry (`relDir` is
the current directory's path relative to the base, `""` at the root).
The gitignore parser is asked first (its `SyntaxError` propagates,
aborting the walk); directories with a built-in ignored name are
pruned without descending; files go through `processFile`. -/
def processEntry (parser : GitignoreParser) (basePath outputPath : String)
    (relDir : String) : FSEntry → Except Unit (List OutputRecord)
  | FSEntry.file name size content => do
      let relativePath := joinRel relDir name
      let acc ← parser.accepts relativePath
      if acc then
        Except.ok (processFile (basePath ++ "/" ++ relativePath) relativePath
          outputPath size content)
      else Except.ok []
  | FSEntry.dir name entries => do
      let relativePath := joinRel relDir name
      let acc ← parser.accepts relativePath
      if !acc then Except.ok []
      else if isCommonIgnoredDirectory name then Except.ok []
      else processEntries parser basePath outputPath relativePath entries
  termination_by structural e => e

/-- `processDirectory` from the source: process the entries of the
current directory strictly in listing order, concatenating the
callback invocations each produces. -/
def processEntries (parser : GitignoreParser) (basePath outputPath : String)
    (relDir : String) : FSForest → Except Unit (List OutputRecord)
  | FSForest.nil => Except.ok []
  | FSForest.cons e rest => do
      let here ← processEntry parser basePath outputPath relDir e
      let restRecords ← processEntries parser basePath outputPath relDir rest
      Except.ok (here ++ restRecords)
  termination_by structural f => f

end

/-- `createFileHeader`'s separator: `'='.repeat(80)`. -/
def separatorLine : String :=
  String.mk (List.replicate 80 '=')

/-- `createFileHeader` from the source. -/
def createFileHeader (filePath : String) : String :=
  separatorLine ++ "\n// FILE: " ++ filePath ++ "\n" ++ separatorLine

/-- The `appendToOutput` callback from `parseProject`:
`outputContent += header + "\n" + content + "\n\n"`. -/
def appendToOutput (outputContent : String) (r : OutputRecord) : String :=
  outputContent ++ createFileHeader r.relativePath ++ "\n" ++ r.content ++ "\n\n"

/-- `parseProject` with the gitignore parser already loaded: walk the
tree collecting callback invocations, fold them into the output
buffer; the returned string is the content written (once, at the end)
to `outputPath`. -/
def parseProjectWith (parser : GitignoreParser)
    (projectPath outputPath : String) (tree : FSForest) :
    Except Unit String := do
  let records ← processEntries parser projectPath outputPath "" tree
  Except.ok (records.foldl appendToOutput "")

/-- `parseProject` from the source: load the parser from the (optional)
`.gitignore` content, walk, and produce the artifact text.  An
`Except.error` is a run that aborts with no artifact written. -/
def parseProject (gitignoreContent : Option String)
    (projectPath outputPath : String) (tree : FSForest) :
    Except Unit String :=
  parseProjectWith (loadGitignoreParser gitignoreContent)
    projectPath outputPath tree

/-! ## Specification-side definitions -/

/-- Does one rule match a path: the rule's compiled `RegExp` (when it
compiles at all) tested against the separator-normalized path. -/
def ruleMatches (rule : GitignoreRule) (filePath : String) : Bool :=
  match parseJsRegex rule.pattern with
  | some regex => regexTest regex (jsReplace filePath "\\" "/")
  | none => false

/-- The record the specification prescribes for one included file: a
line of 80 `=`, the `// FILE:` marker line, another line of 80 `=`,
the raw content, then a blank line. -/
def recordText (r : OutputRecord) : String :=
  separatorLine ++ "\n// FILE: " ++ r.relativePath ++ "\n" ++
    separatorLine ++ "\n" ++ r.content ++ "\n\n"

/-- The specification's serialization of the record list: the records
in order, concatenated with no separator between them. -/
def concatRecords : List OutputRecord → String
  | [] => ""
  | r :: rs => recordText r ++ concatRecords rs

/-- One `reduce` step of `accepts`, with the path normalization
inlined (definitionally equal to the closure in `acceptsRules`). -/
def acceptsStep (path : String) (shouldInclude : Bool)
    (rule : GitignoreRule) : Except Unit Bool :=
  match parseJsRegex rule.pattern with
  | none => Except.error ()
  | some regex =>
      Except.ok (if regexTest regex (jsReplace path "\\" "/") then
        rule.isNegated else shouldInclude)

/-! ## Helper lemmas -/

theorem ok_bind {ε α β : Type} (a : α) (f : α → Except ε β) :
    (Except.ok (ε := ε) a >>= f) = f a := rfl

theorem acceptsRules_eq_foldlM (rules : List GitignoreRule) (path : String) :
    acceptsRules rules path = rules.foldlM (acceptsStep path) true := rfl

theorem foldlM_acceptsStep_ok (path : String) :
    ∀ (rules : List GitignoreRule),
      (∀ r ∈ rules, (parseJsRegex r.pattern).isSome) →
      ∀ (b : Bool),
        rules.foldlM (acceptsStep path) b =
          Except.ok (rules.foldl
            (fun acc r => if ruleMatches r path then r.isNegated else acc) b)
  | [], _, b => rfl
  | r :: rs, h, b => by
      have hr : (parseJsRegex r.pattern).isSome := h r (by simp)
      obtain ⟨regex, hregex⟩ := Option.isSome_iff_exists.mp hr
      have hstep : acceptsStep path b r =
          Except.ok (if ruleMatches r path then r.isNegated else b) := by
        simp [acceptsStep, ruleMatches, hregex]
      simp only [List.foldlM_cons, List.foldl_cons, hstep, ok_bind]
      exact foldlM_acceptsStep_ok path rs (fun x hx => h x (by simp [hx])) _

theorem acceptsRules_eq_foldl (rules : List GitignoreRule) (path : String)
    (h : ∀ r ∈ rules, (parseJsRegex r.pattern).isSome) :
    acceptsRules rules path =
      Except.ok (rules.foldl
        (fun acc r => if ruleMatches r path then r.isNegated else acc) true) := by
  rw [acceptsRules_eq_foldlM]
  exact foldlM_acceptsStep_ok path rules h true

theorem foldl_override_eq_find_reverse {α : Type} (m : α → Bool)
    (f : α → Bool) :
    ∀ (rules : List α) (b : Bool),
      rules.foldl (fun acc r => if m r then f r else acc) b =
        ((rules.reverse.find? m).map f).getD b
  | [], b => rfl
  | r :: rs, b => by
      simp only [List.foldl_cons, List.reverse_cons, List.find?_append,
        foldl_override_eq_find_reverse m f rs]
      cases hfind : rs.reverse.find? m with
      | some x => simp
      | none =>
          cases hm : m r <;>
            simp [List.find?_cons, hm]

theorem error_bind {ε α β : Type} (e : ε) (f : α → Except ε β) :
    (Except.error e >>= f : Except ε β) = Except.error e := rfl

theorem processFile_none_content (fp rel op : String) (size : Nat) :
    processFile fp rel op size none = [] := by
  simp [processFile]

theorem processFile_mem (fp rel op : String) (size : Nat)
    (content : Option String) :
    ∀ r ∈ processFile fp rel op size content,
      r.relativePath = rel ∧ fp ≠ op := by
  unfold processFile
  by_cases h1 : (fp == op) = true
  · simp [h1]
  · rw [if_neg (by simp_all)]
    have hne : fp ≠ op := by
      intro heq
      exact h1 (by simp [heq])
    by_cases h2 : (isBinaryFile fp || isFileTooLarge size) = true
    · simp [h2]
    · rw [if_neg (by simp_all)]
      by_cases h3 : isCommonIgnoredFile (basename fp) = true
      · simp [h3]
      · rw [if_neg (by simp_all)]
        cases content with
        | none => simp
        | some text =>
            intro r hr
            simp only [List.mem_singleton] at hr
            exact ⟨by rw [hr], hne⟩

mutual

theorem processEntry_ne_output (parser : GitignoreParser)
    (basePath outputPath relDir : String) :
    ∀ (e : FSEntry) (recs : List OutputRecord),
      processEntry parser basePath outputPath relDir e = Except.ok recs →
      ∀ r ∈ recs, basePath ++ "/" ++ r.relativePath ≠ outputPath
  | FSEntry.file name size content, recs, h => by
      simp only [processEntry] at h
      cases hacc : parser.accepts (joinRel relDir name) with
      | error e => rw [hacc, error_bind] at h; cases h
      | ok b =>
          rw [hacc, ok_bind] at h
          cases b with
          | false => simp only [Bool.false_eq_true, if_neg] at h
                     cases h; intro r hr; cases hr
          | true =>
              simp only [if_pos] at h
              cases h
              intro r hr
              have hmem := processFile_mem
                (basePath ++ "/" ++ joinRel relDir name) (joinRel relDir name)
                outputPath size content r hr
              rw [hmem.1]
              exact hmem.2
  | FSEntry.dir name entries, recs, h => by
      simp only [processEntry] at h
      cases hacc : parser.accepts (joinRel relDir name) with
      | error e => rw [hacc, error_bind] at h; cases h
      | ok b =>
          rw [hacc, ok_bind] at h
          cases b with
          | false => simp only [Bool.not_false, if_pos] at h
                     cases h; intro r hr; cases hr
          | true =>
              simp only [Bool.not_true, Bool.false_eq_true, if_neg] at h
              by_cases hdir : isCommonIgnoredDirectory name = true
              · rw [if_pos hdir] at h
                cases h; intro r hr; cases hr
              · rw [if_neg hdir] at h
                exact processEntries_ne_output parser basePath outputPath
                  (joinRel relDir name) entries recs h
  termination_by structural e => e

theorem processEntries_ne_output (parser : GitignoreParser)
    (basePath outputPath relDir : String) :
    ∀ (f : FSForest) (recs : List OutputRecord),
      processEntries parser basePath outputPath relDir f = Except.ok recs →
      ∀ r ∈ recs, basePath ++ "/" ++ r.relativePath ≠ outputPath
  | FSForest.nil, recs, h => by
      cases h; intro r hr; cases hr
  | FSForest.cons e rest, recs, h => by
      unfold processEntries at h
      cases h1 : processEntry parser basePath outputPath relDir e with
      | error e1 => rw [h1, error_bind] at h; cases h
      | ok here =>
          rw [h1, ok_bind] at h
          cases h2 : processEntries parser basePath outputPath relDir rest with
          | error e2 => rw [h2, error_bind] at h; cases h
          | ok restRecords =>
              rw [h2, ok_bind] at h
              cases h
              intro r hr
              rcases List.mem_append.mp hr with hl | hr2
              · exact processEntry_ne_output parser basePath outputPath relDir
                  e here h1 r hl
              · exact processEntries_ne_output parser basePath outputPath relDir
                  rest restRecords h2 r hr2
  termination_by structural f => f

end

theorem matchHere_map_lit : ∀ (l cs : List Char),
    matchHere (l.map RElem.lit) cs = l.isPrefixOf cs
  | [], cs => by simp [matchHere, List.isPrefixOf]
  | c :: l, [] => by simp [matchHere, List.isPrefixOf]
  | c :: l, d :: cs => by
      simp only [List.map_cons, matchHere, List.isPrefixOf,
        matchHere_map_lit l cs]
      by_cases hcd : c = d <;> simp [hcd]

theorem appendToOutput_eq (s : String) (r : OutputRecord) :
    appendToOutput s r = s ++ recordText r := by
  simp [appendToOutput, recordText, createFileHeader, String.append_assoc]

theorem foldl_appendToOutput :
    ∀ (recs : List OutputRecord) (s : String),
      recs.foldl appendToOutput s = s ++ concatRecords recs
  | [], s => by
      apply String.ext
      simp [concatRecords, String.data_append]
  | r :: rs, s => by
      simp only [List.foldl_cons, foldl_appendToOutput rs, appendToOutput_eq,
        concatRecords, String.append_assoc]

/-! ## Claim theorems -/

/-- C1: for every rule sequence whose patterns all compile, the
inclusion decision for a path is the fold of the rules in declaration
order where a matching rule overwrites the accumulator with its
negation flag — equivalently, the last matching rule decides, and a
path matched by no rule is accepted (`true`).  Concretely, under the
rules of `"*.log\n!keep.log"`, the path `keep.log` is accepted,
`other.log` is rejected, and `readme.md` is accepted by default. -/
theorem gitignore_last_matching_rule_wins (rules : List GitignoreRule)
    (path : String) (h : ∀ r ∈ rules, (parseJsRegex r.pattern).isSome) :
    acceptsRules rules path =
      Except.ok (((rules.reverse.find? (fun r => ruleMatches r path)).map
        (fun r => r.isNegated)).getD true) ∧
    acceptsRules (parseGitignoreRules "*.log\n!keep.log") "keep.log" =
      Except.ok true ∧
    acceptsRules (parseGitignoreRules "*.log\n!keep.log") "other.log" =
      Except.ok false ∧
    acceptsRules (parseGitignoreRules "*.log\n!keep.log") "readme.md" =
      Except.ok true := by
  refine ⟨?_, by decide, by decide, by decide⟩
  rw [acceptsRules_eq_foldl rules path h,
    foldl_override_eq_find_reverse (fun r => ruleMatches r path)
      (fun r => r.isNegated) rules true]

/-- Witness for C1 at the rules compiled from `"*.log\n!keep.log"`
and the path `keep.log`. -/
theorem gitignore_last_matching_rule_wins_witness :
    acceptsRules (parseGitignoreRules "*.log\n!keep.log") "keep.log" =
      Except.ok ((((parseGitignoreRules "*.log\n!keep.log").reverse.find?
        (fun r => ruleMatches r "keep.log")).map
          (fun r => r.isNegated)).getD true) :=
  (gitignore_last_matching_rule_wins (parseGitignoreRules "*.log\n!keep.log")
    "keep.log" (by decide)).1

/-- C2 (counterexample): contrary to the claim, the pattern
`**/node_modules` does NOT reject the bare path `node_modules` (its
compiled regex `.*/node_modules` demands a literal `/`), and the
pattern `*.tmp` DOES reject `dir/x.tmp.bak` (matching is an unanchored
substring search). -/
theorem globstar_claim_counterexample :
    acceptsRules (parseGitignoreRules "**/node_modules") "node_modules" =
      Except.ok true ∧
    acceptsRules (parseGitignoreRules "*.tmp") "dir/x.tmp.bak" =
      Except.ok false := by decide

/-- C2 (amended): `**/node_modules` rejects `a/b/node_modules` but
accepts the bare `node_modules`; `*.tmp` rejects `x.tmp` and, because
the compiled regex is tested unanchored, also rejects
`dir/x.tmp.bak`. -/
theorem compiled_glob_matching_amended :
    acceptsRules (parseGitignoreRules "**/node_modules") "a/b/node_modules" =
      Except.ok false ∧
    acceptsRules (parseGitignoreRules "**/node_modules") "node_modules" =
      Except.ok true ∧
    acceptsRules (parseGitignoreRules "*.tmp") "x.tmp" = Except.ok false ∧
    acceptsRules (parseGitignoreRules "*.tmp") "dir/x.tmp.bak" =
      Except.ok false ∧
    convertGitignorePatternToRegex "**/node_modules" = ".*/node_modules" ∧
    convertGitignorePatternToRegex "*.tmp" = "[^/]*.tmp" := by decide

/-- C9 (counterexample): a malformed pattern aborts the run: with a
`.gitignore` consisting of the single line `a[`, walking a root that
contains any entry raises (the `SyntaxError` from `new RegExp`
propagates out of `accepts`), and no artifact is produced. -/
theorem malformed_pattern_aborts_run :
    parseProject (some "a[") "/r" "/r/out.txt"
      (FSForest.cons (FSEntry.file "x.txt" 5 (some "hi")) FSForest.nil) =
      Except.error () := by decide

/-- C9 (amended): compiling the line `a[` into a rule raises nothing,
but constructing its `RegExp` during matching fails, so `accepts`
raises and a walk over any non-empty root aborts; over an empty root
the malformed pattern is never tested and the run still succeeds. -/
theorem malformed_pattern_behavior_amended :
    parseGitignoreRules "a[" = [{ pattern := "a[", isNegated := false }] ∧
    parseJsRegex "a[" = none ∧
    acceptsRules (parseGitignoreRules "a[") "x.txt" = Except.error () ∧
    parseProject (some "a[") "/r" "/r/out.txt"
      (FSForest.cons (FSEntry.file "y.txt" 5 (some "hi")) FSForest.nil) =
      Except.error () ∧
    parseProject (some "a[") "/r" "/r/out.txt" FSForest.nil =
      Except.ok "" := by decide

/-- C4: any file of exactly 1,048,577 bytes is excluded whatever its
other attributes; any file with a built-in binary extension is
excluded whatever its size; a 1,048,576-byte file is included when
nothing else excludes it; and `photo.PNG` counts as binary despite the
upper-case extension. -/
theorem size_and_binary_exclusion :
    (∀ (fp rp op : String) (c : Option String),
      processFile fp rp op 1048577 c = []) ∧
    (∀ (fp rp op : String) (sz : Nat) (c : Option String),
      isBinaryFile fp = true → processFile fp rp op sz c = []) ∧
    (∀ (fp rp op text : String), (fp == op) = false →
      isBinaryFile fp = false → isCommonIgnoredFile (basename fp) = false →
      processFile fp rp op 1048576 (some text) = [⟨rp, text⟩]) ∧
    isBinaryFile "photo.PNG" = true := by
  refine ⟨?_, ?_, ?_, by decide⟩
  · intro fp rp op c
    have hlarge : isFileTooLarge 1048577 = true := by decide
    unfold processFile
    simp [hlarge]
  · intro fp rp op sz c hbin
    unfold processFile
    simp [hbin]
  · intro fp rp op text hout hbin hname
    have hsize : isFileTooLarge 1048576 = false := by decide
    unfold processFile
    simp [hout, hbin, hname, hsize]

/-- C8 (counterexample): contrary to the claim that `/build` rejects
only a top-level entry named `build`, it also rejects the top-level
entry `builder` (the compiled regex `^build` is not right-anchored). -/
theorem leading_slash_only_counterexample :
    acceptsRules (parseGitignoreRules "/build") "builder" =
      Except.ok false := by decide

/-- C8 (amended): a leading `/` anchors the pattern at the start of
the relative path: `/build` rejects exactly the paths that begin with
the characters `build` — so it rejects the top-level `build` and does
not reject `src/build`, but it also rejects e.g. `builder`. -/
theorem leading_slash_anchor_amended :
    (∀ path : String,
      acceptsRules (parseGitignoreRules "/build") path =
        Except.ok (!strStartsWith (jsReplace path "\\" "/") "build")) ∧
    acceptsRules (parseGitignoreRules "/build") "build" = Except.ok false ∧
    acceptsRules (parseGitignoreRules "/build") "src/build" = Except.ok true ∧
    acceptsRules (parseGitignoreRules "/build") "builder" = Except.ok false := by
  refine ⟨?_, by decide, by decide, by decide⟩
  intro path
  have hrules : parseGitignoreRules "/build" =
      [{ pattern := "^build", isNegated := false }] := by decide
  rw [hrules, acceptsRules_eq_foldlM]
  have hstep : acceptsStep path true { pattern := "^build", isNegated := false } =
      Except.ok (!strStartsWith (jsReplace path "\\" "/") "build") := by
    have hregex : parseJsRegex "^build" =
        some ⟨true, ['b', 'u', 'i', 'l', 'd'].map RElem.lit⟩ := by decide
    simp only [acceptsStep, hregex]
    have hm : regexTest ⟨true, ['b', 'u', 'i', 'l', 'd'].map RElem.lit⟩
        (jsReplace path "\\" "/") =
        strStartsWith (jsReplace path "\\" "/") "build" := by
      simp only [regexTest, if_true, matchHere_map_lit]
      rfl
    rw [hm]
    cases strStartsWith (jsReplace path "\\" "/") "build" <;> simp
  simp only [List.foldlM_cons, List.foldlM_nil, hstep, ok_bind]
  rfl

/-- C3: with project root `R` and output path `R/out.txt`, a
successful walk never records the output file itself: every produced
record's relative path differs from `out.txt` — in particular on a
second run, where `out.txt` already exists inside the tree. -/
theorem output_self_exclusion (parser : GitignoreParser) (R : String)
    (tree : FSForest) (recs : List OutputRecord)
    (h : processEntries parser R (R ++ "/out.txt") "" tree = Except.ok recs) :
    recs.all (fun r => r.relativePath != "out.txt") = true := by
  rw [List.all_eq_true]
  intro r hr
  rw [bne_iff_ne]
  intro heq
  apply processEntries_ne_output parser R (R ++ "/out.txt") "" tree recs h r hr
  rw [heq, String.append_assoc]
  have hslash : ("/" ++ "out.txt" : String) = "/out.txt" := by decide
  rw [hslash]

/-- Witness for C3: a second run whose tree already contains
`out.txt` from the previous run, next to a normal file. -/
theorem output_self_exclusion_witness :
    ([⟨"a.txt", "hi"⟩] : List OutputRecord).all
      (fun r => r.relativePath != "out.txt") = true :=
  output_self_exclusion GitignoreParser.defaultAccept "/r"
    (FSForest.cons (FSEntry.file "out.txt" 9 (some "old"))
      (FSForest.cons (FSEntry.file "a.txt" 2 (some "hi")) FSForest.nil))
    [⟨"a.txt", "hi"⟩] (by decide)

/-- C5: a successful run serializes exactly one record per accepted
file, in traversal order, concatenated with nothing between records;
a record is the 80-`=` separator line, the `// FILE:` marker line,
the separator again, the raw content and a blank line (the shape of
`recordText`), and the separator is exactly 80 `=` characters. -/
theorem record_format_concatenation (parser : GitignoreParser)
    (basePath outputPath : String) (tree : FSForest)
    (recs : List OutputRecord)
    (h : processEntries parser basePath outputPath "" tree = Except.ok recs) :
    parseProjectWith parser basePath outputPath tree =
      Except.ok (concatRecords recs) ∧
    separatorLine.length = 80 ∧
    separatorLine.data.all (fun c => c = '=') = true := by
  refine ⟨?_, by decide, by decide⟩
  unfold parseProjectWith
  rw [h, ok_bind, foldl_appendToOutput]
  congr 1

/-- Witness for C5: a run over a small tree with a gitignored file
and a subdirectory. -/
theorem record_format_concatenation_witness :
    parseProjectWith (GitignoreParser.ofRules (parseGitignoreRules "b.txt"))
        "/r" "/r/out.txt"
        (FSForest.cons (FSEntry.file "a.txt" 5 (some "hello"))
          (FSForest.cons (FSEntry.file "b.txt" 7 (some "ignored"))
            (FSForest.cons (FSEntry.dir "sub"
                (FSForest.cons (FSEntry.file "c.txt" 5 (some "world"))
                  FSForest.nil))
              FSForest.nil))) =
      Except.ok (concatRecords [⟨"a.txt", "hello"⟩, ⟨"sub/c.txt", "world"⟩]) ∧
    separatorLine.length = 80 ∧
    separatorLine.data.all (fun c => c = '=') = true :=
  record_format_concatenation
    (GitignoreParser.ofRules (parseGitignoreRules "b.txt")) "/r" "/r/out.txt"
    (FSForest.cons (FSEntry.file "a.txt" 5 (some "hello"))
      (FSForest.cons (FSEntry.file "b.txt" 7 (some "ignored"))
        (FSForest.cons (FSEntry.dir "sub"
            (FSForest.cons (FSEntry.file "c.txt" 5 (some "world"))
              FSForest.nil))
          FSForest.nil)))
    [⟨"a.txt", "hello"⟩, ⟨"sub/c.txt", "world"⟩] (by decide)

/-- C6: when the gitignore parser itself never raises, a file whose
text read fails contributes nothing — the walk over a listing
beginning with such a file equals the walk over the listing without
it, so every other accepted file still reaches the artifact. -/
theorem per_file_read_error_skipped (parser : GitignoreParser)
    (basePath outputPath relDir name : String) (size : Nat) (rest : FSForest)
    (htot : ∀ p, parser.accepts p ≠ Except.error ()) :
    processEntry parser basePath outputPath relDir
      (FSEntry.file name size none) = Except.ok [] ∧
    processEntries parser basePath outputPath relDir
      (FSForest.cons (FSEntry.file name size none) rest) =
      processEntries parser basePath outputPath relDir rest := by
  have h1 : processEntry parser basePath outputPath relDir
      (FSEntry.file name size none) = Except.ok [] := by
    simp only [processEntry]
    cases hacc : parser.accepts (joinRel relDir name) with
    | error e => cases e; exact absurd hacc (htot _)
    | ok b =>
        rw [ok_bind]
        cases b with
        | false => simp
        | true => simp [processFile_none_content]
  refine ⟨h1, ?_⟩
  simp only [processEntries]
  rw [h1, ok_bind]
  cases h2 : processEntries parser basePath outputPath relDir rest with
  | error e2 => rw [error_bind]
  | ok restRecords => rw [ok_bind, List.nil_append]

/-- Witness for C6: an unreadable file followed by a readable one,
under the default (accept everything) parser. -/
theorem per_file_read_error_skipped_witness :
    processEntry GitignoreParser.defaultAccept "/r" "/r/out.txt" ""
      (FSEntry.file "broken.txt" 5 none) = Except.ok [] ∧
    processEntries GitignoreParser.defaultAccept "/r" "/r/out.txt" ""
      (FSForest.cons (FSEntry.file "broken.txt" 5 none)
        (FSForest.cons (FSEntry.file "ok.txt" 2 (some "hi")) FSForest.nil)) =
      processEntries GitignoreParser.defaultAccept "/r" "/r/out.txt" ""
        (FSForest.cons (FSEntry.file "ok.txt" 2 (some "hi")) FSForest.nil) :=
  per_file_read_error_skipped GitignoreParser.defaultAccept "/r" "/r/out.txt"
    "" "broken.txt" 5
    (FSForest.cons (FSEntry.file "ok.txt" 2 (some "hi")) FSForest.nil)
    (fun _ h => Except.noConfusion h)

/-- C7: a directory whose bare name is in the built-in ignored set
(e.g. `node_modules`) is never descended into: whatever the gitignore
rules — even ones that re-include it — its subtree contributes zero
records (or the rules themselves raise and the whole walk aborts with
no records at all). -/
theorem builtin_directory_pruned (parser : GitignoreParser)
    (basePath outputPath relDir name : String) (entries : FSForest)
    (hname : isCommonIgnoredDirectory name = true) :
    processEntry parser basePath outputPath relDir
        (FSEntry.dir name entries) = Except.error () ∨
    processEntry parser basePath outputPath relDir
        (FSEntry.dir name entries) = Except.ok [] := by
  simp only [processEntry]
  cases hacc : parser.accepts (joinRel relDir name) with
  | error e => cases e; left; rw [error_bind]
  | ok b =>
      right
      rw [ok_bind]
      cases b with
      | false => simp
      | true => simp [hname]

/-- Witness for C7: a `node_modules` directory with content, under a
gitignore whose only rule `!node_modules` re-includes it. -/
theorem builtin_directory_pruned_witness :
    processEntry (GitignoreParser.ofRules (parseGitignoreRules "!node_modules"))
        "/r" "/r/out.txt" ""
        (FSEntry.dir "node_modules"
          (FSForest.cons (FSEntry.file "x.js" 3 (some "zzz")) FSForest.nil)) =
        Except.error () ∨
    processEntry (GitignoreParser.ofRules (parseGitignoreRules "!node_modules"))
        "/r" "/r/out.txt" ""
        (FSEntry.dir "node_modules"
          (FSForest.cons (FSEntry.file "x.js" 3 (some "zzz")) FSForest.nil)) =
        Except.ok [] :=
  builtin_directory_pruned
    (GitignoreParser.ofRules (parseGitignoreRules "!node_modules"))
    "/r" "/r/out.txt" "" "node_modules"
    (FSForest.cons (FSEntry.file "x.js" 3 (some "zzz")) FSForest.nil)
    (by decide)

/-- C10: a successful run's artifact is the single string produced at
the end of the walk (one write, its content fully determined by the
collected records); a run over an empty root succeeds and writes the
empty string, and so does any run that accepted no file. -/
theorem single_final_write_and_empty_tree :
    (∀ (parser : GitignoreParser) (bp op : String) (tree : FSForest)
        (recs : List OutputRecord),
      processEntries parser bp op "" tree = Except.ok recs →
      parseProjectWith parser bp op tree =
        Except.ok (recs.foldl appendToOutput "")) ∧
    (∀ (gc : Option String) (bp op : String),
      parseProject gc bp op FSForest.nil = Except.ok "") ∧
    (∀ (parser : GitignoreParser) (bp op : String) (tree : FSForest),
      processEntries parser bp op "" tree = Except.ok [] →
      parseProjectWith parser bp op tree = Except.ok "") := by
  refine ⟨?_, ?_, ?_⟩
  · intro parser bp op tree recs h
    unfold parseProjectWith
    rw [h, ok_bind]
  · intro gc bp op
    rfl
  · intro parser bp op tree h
    unfold parseProjectWith
    rw [h, ok_bind]
    rfl

/-- Witness for C10: a one-file tree produces the folded buffer; an
empty root with a malformed `.gitignore` still succeeds with `""`. -/
theorem single_final_write_and_empty_tree_witness :
    parseProjectWith GitignoreParser.defaultAccept "/r" "/r/out.txt"
        (FSForest.cons (FSEntry.file "a.txt" 2 (some "hi")) FSForest.nil) =
      Except.ok
        (([⟨"a.txt", "hi"⟩] : List OutputRecord).foldl appendToOutput "") ∧
    parseProject (some "a[") "/q" "/q/out.txt" FSForest.nil =
      Except.ok "" :=
  ⟨single_final_write_and_empty_tree.1 GitignoreParser.defaultAccept "/r"
      "/r/out.txt"
      (FSForest.cons (FSEntry.file "a.txt" 2 (some "hi")) FSForest.nil)
      [⟨"a.txt", "hi"⟩] (by decide),
    single_final_write_and_empty_tree.2.1 (some "a[") "/q" "/q/out.txt"⟩

/-- Witness for C4: a text file at the size threshold is included,
one byte heavier is excluded, and `photo.PNG` is excluded. -/
theorem size_and_binary_exclusion_witness :
    processFile "/r/a.txt" "a.txt" "/r/out.txt" 1048576 (some "hi") =
      [⟨"a.txt", "hi"⟩] ∧
    processFile "/r/a.txt" "a.txt" "/r/out.txt" 1048577 (some "hi") = [] ∧
    processFile "/r/photo.PNG" "photo.PNG" "/r/out.txt" 10 (some "img") =
      [] :=
  ⟨size_and_binary_exclusion.2.2.1 "/r/a.txt" "a.txt" "/r/out.txt" "hi"
      (by decide) (by decide) (by decide),
    size_and_binary_exclusion.1 "/r/a.txt" "a.txt" "/r/out.txt" (some "hi"),
    size_and_binary_exclusion.2.1 "/r/photo.PNG" "photo.PNG" "/r/out.txt" 10
      (some "img") (by decide)⟩

end Repotok
